import Mathlib

/-!
Formal model of the spectrum visualizer's signal pipeline and animation core:
beat detection, frequency-band mapping and extraction, the legacy bar animator,
the modern renderer's peak hold, and the ambient particle field.

Numbers are idealized: Python floats become real numbers where square roots are
involved and rational numbers elsewhere; Python ints become integers or naturals.
-/

/-- Python `int()` applied to a fractional value: truncation toward zero. -/
def pyInt {α : Type} [LinearOrderedField α] [FloorRing α] (x : α) : ℤ :=
  if x < 0 then ⌈x⌉ else ⌊x⌋

/-- Root-mean-square of a frame of samples, `np.sqrt(np.mean(audio_data ** 2))`. -/
noncomputable def rms (xs : List ℝ) : ℝ :=
  Real.sqrt ((xs.map fun v => v ^ 2).sum / xs.length)

/-- Mutable state of `BeatDetector`: the rolling energy history
(`_energy_history`) and the cooldown counter (`_cooldown_samples`). -/
structure BeatState where
  history : List ℝ
  cooldown : ℕ

namespace BeatDetector

/-- The history capacity, `_history_size = 43`. -/
def historySize : ℕ := 43

/-- Append the current energy to the history and drop the oldest entry when the
size exceeds the capacity (`append` followed by the conditional `pop(0)`). -/
def pushEnergy (hist : List ℝ) (e : ℝ) : List ℝ :=
  if historySize < (hist ++ [e]).length then (hist ++ [e]).tail else hist ++ [e]

/-- Mean of the energy history, `np.mean(self._energy_history)` guarded by the
emptiness check. -/
noncomputable def avgEnergy (hist : List ℝ) : ℝ :=
  if hist.isEmpty then 0 else hist.sum / hist.length

/-- The intensity ratio of current energy to average energy, zero when the
average is at or below the `0.001` guard. -/
noncomputable def intensityOf (e : ℝ) (hist : List ℝ) : ℝ :=
  if 1 / 1000 < avgEnergy hist then e / avgEnergy hist else 0

/-- `BeatDetector.detect`: computes the RMS energy of the frame, pushes it into
the history, derives the intensity, applies the cooldown, and otherwise tests
the beat condition.  Returns the pair `(isBeat, intensity)` together with the
updated detector state. -/
noncomputable def detect (sensitivityMs threshold : ℚ) (frame : List ℝ)
    (s : BeatState) : (Bool × ℝ) × BeatState :=
  let e := rms frame
  let hist := pushEnergy s.history e
  let intensity := intensityOf e hist
  if 0 < s.cooldown then
    ((false, intensity), ⟨hist, s.cooldown - 1⟩)
  else if (threshold : ℝ) < intensity ∧ 1 / 100 < e then
    ((true, min intensity 5),
      ⟨hist, max (pyInt ((sensitivityMs / 1000) * 60)).toNat 1⟩)
  else
    ((false, min intensity 5), ⟨hist, 0⟩)

/-- `BeatDetector.reset`: clears the history and the cooldown. -/
def reset (_ : BeatState) : BeatState := ⟨[], 0⟩

end BeatDetector

section BeatTheorems

open BeatDetector

/-- The RMS energy of a frame is nonnegative. -/
theorem rms_nonneg (xs : List ℝ) : 0 ≤ rms xs := Real.sqrt_nonneg _

/-- The intensity ratio is nonnegative whenever the current energy is. -/
theorem intensityOf_nonneg (e : ℝ) (he : 0 ≤ e) (hist : List ℝ) :
    0 ≤ intensityOf e hist := by
  unfold intensityOf
  split
  · have hpos : (1:ℝ) / 1000 < avgEnergy hist := by assumption
    exact div_nonneg he (by linarith)
  · exact le_refl 0

/-- The RMS of the one-sample frame of amplitude one is one. -/
theorem rms_single_one : rms [1] = 1 := by
  unfold rms
  norm_num

/-- Evaluation of a beat-triggering call: from the state with history `[0]` and
no cooldown, a unit-amplitude frame has energy 1, average energy one half,
intensity 2, and so triggers a beat. -/
theorem detect_trigger_eval (sens : ℚ) :
    detect sens (3/2) [1] ⟨[0], 0⟩
      = ((true, 2), ⟨[0, 1], max (pyInt ((sens / 1000) * 60)).toNat 1⟩) := by
  simp only [detect, pushEnergy, avgEnergy, intensityOf, historySize, rms_single_one]
  norm_num

/-- C1 (amended): the intensity returned by `BeatDetector.detect` is always
nonnegative, and on every call that begins with zero cooldown (the path on
which the cap is applied) it is at most 5.0.  During a cooldown the raw,
uncapped ratio is returned instead. -/
theorem detect_intensity_nonneg_and_capped (sens thr : ℚ) (frame : List ℝ)
    (s : BeatState) :
    0 ≤ (detect sens thr frame s).1.2 ∧
    (s.cooldown = 0 → (detect sens thr frame s).1.2 ≤ 5) := by
  have hi : 0 ≤ intensityOf (rms frame) (pushEnergy s.history (rms frame)) :=
    intensityOf_nonneg _ (rms_nonneg frame) _
  simp only [detect]
  split
  · exact ⟨hi, fun h0 => absurd h0 (by omega)⟩
  · split
    · exact ⟨le_min hi (by norm_num), fun _ => min_le_right _ _⟩
    · exact ⟨le_min hi (by norm_num), fun _ => min_le_right _ _⟩

/-- Witness for C1's theorem at the empty frame and the fresh detector state. -/
theorem detect_intensity_nonneg_and_capped_witness :
    0 ≤ (detect 20 (3/2) [] ⟨[], 0⟩).1.2 ∧
    ((⟨[], 0⟩ : BeatState).cooldown = 0 → (detect 20 (3/2) [] ⟨[], 0⟩).1.2 ≤ 5) :=
  detect_intensity_nonneg_and_capped 20 (3/2) [] ⟨[], 0⟩

/-- C1 counterexample: with 42 zero-energy entries in the history and a
positive cooldown, a unit-amplitude frame makes `detect` return the uncapped
intensity 43, which exceeds 5.0. -/
theorem detect_uncapped_intensity_cooldown_cex :
    5 < (detect 20 (3/2) [1] ⟨List.replicate 42 0, 1⟩).1.2 := by
  simp only [detect, pushEnergy, avgEnergy, intensityOf, historySize, rms_single_one]
  norm_num [List.sum_append, List.sum_replicate]

/-- C5: while the cooldown counter is strictly positive, `detect` reports no
beat regardless of the frame, and the counter decreases by exactly one. -/
theorem detect_cooldown_suppresses (sens thr : ℚ) (frame : List ℝ)
    (s : BeatState) (h : 0 < s.cooldown) :
    (detect sens thr frame s).1.1 = false ∧
    (detect sens thr frame s).2.cooldown = s.cooldown - 1 := by
  simp only [detect]
  rw [if_pos h]
  exact ⟨rfl, rfl⟩

/-- Witness for C5's theorem at cooldown two and the empty frame. -/
theorem detect_cooldown_suppresses_witness :
    (0:ℕ) < 2 ∧
    ((detect 20 (3/2) [] ⟨[], 2⟩).1.1 = false ∧
     (detect 20 (3/2) [] ⟨[], 2⟩).2.cooldown = 2 - 1) :=
  ⟨by norm_num, detect_cooldown_suppresses 20 (3/2) [] ⟨[], 2⟩ (by norm_num)⟩

/-- C6 (amended): on every call that reports a beat, the cooldown counter is
set to `max(1, trunc(sensitivityMs / 1000 * 60))`, where `trunc` is Python's
`int()` truncation toward zero rather than rounding to nearest. -/
theorem detect_beat_cooldown_trunc (sens thr : ℚ) (frame : List ℝ)
    (s : BeatState) (h : (detect sens thr frame s).1.1 = true) :
    (detect sens thr frame s).2.cooldown
      = max (pyInt ((sens / 1000) * 60)).toNat 1 := by
  simp only [detect] at h ⊢
  split at h
  · simp at h
  · split at h
    · rw [if_neg (by assumption), if_pos (by assumption)]
    · simp at h

/-- Witness for C6's theorem at sensitivity 20 on a beat-triggering call. -/
theorem detect_beat_cooldown_trunc_witness :
    (detect 20 (3/2) [1] ⟨[0], 0⟩).1.1 = true ∧
    (detect 20 (3/2) [1] ⟨[0], 0⟩).2.cooldown
      = max (pyInt (((20:ℚ) / 1000) * 60)).toNat 1 := by
  have h : (detect 20 (3/2) [1] ⟨[0], 0⟩).1.1 = true := by
    rw [detect_trigger_eval]
  exact ⟨h, detect_beat_cooldown_trunc 20 (3/2) [1] ⟨[0], 0⟩ h⟩

/-- C6 counterexample: at sensitivity 25 ms a triggered beat sets the cooldown
to `max(1, trunc(1.5)) = 1`, while the claimed formula with rounding gives
`max(1, round(1.5)) = 2`. -/
theorem detect_beat_cooldown_round_cex :
    (detect 25 (3/2) [1] ⟨[0], 0⟩).1.1 = true ∧
    (detect 25 (3/2) [1] ⟨[0], 0⟩).2.cooldown = 1 ∧
    (1 : ℕ) ≠ max 1 (round ((25:ℚ) / 1000 * 60)).toNat := by
  refine ⟨by rw [detect_trigger_eval], ?_, ?_⟩
  · rw [detect_trigger_eval]
    norm_num [pyInt]
  · have h2 : round ((25:ℚ) / 1000 * 60) = 2 := by
      norm_num [round_eq]
    rw [h2]
    decide

/-- Pushing an energy keeps the history within the 43-entry capacity. -/
theorem pushEnergy_length_le (hist : List ℝ) (e : ℝ)
    (h : hist.length ≤ historySize) :
    (pushEnergy hist e).length ≤ historySize := by
  unfold pushEnergy
  split
  · simpa [List.length_tail] using h
  · rename_i hc
    simp only [historySize, List.length_append, List.length_singleton] at hc ⊢
    omega

/-- The most recent entry of the pushed history is the pushed energy. -/
theorem pushEnergy_getLast (hist : List ℝ) (e : ℝ) :
    (pushEnergy hist e).getLast? = some e := by
  unfold pushEnergy
  split
  · rename_i hlen
    cases hist with
    | nil => simp [historySize] at hlen
    | cons x t => simp [List.getLast?_concat]
  · simp [List.getLast?_concat]

/-- C9: every call to `detect` pushes the current frame's energy into the
history before the average and the cooldown check: the new history is exactly
the pushed history (so it keeps updating even during a cooldown), it ends with
the current energy, it stays within 43 entries, and the intensity returned
while a cooldown is active is the ratio computed against the pushed history
that already contains the current frame. -/
theorem detect_history_order (sens thr : ℚ) (frame : List ℝ) (s : BeatState)
    (h : s.history.length ≤ historySize) :
    (detect sens thr frame s).2.history = pushEnergy s.history (rms frame) ∧
    (detect sens thr frame s).2.history.length ≤ historySize ∧
    (detect sens thr frame s).2.history.getLast? = some (rms frame) ∧
    (0 < s.cooldown → (detect sens thr frame s).1.2
        = intensityOf (rms frame) (pushEnergy s.history (rms frame))) := by
  have hsame : (detect sens thr frame s).2.history
      = pushEnergy s.history (rms frame) := by
    simp only [detect]
    split
    · rfl
    · split
      · rfl
      · rfl
  refine ⟨hsame, ?_, ?_, ?_⟩
  · rw [hsame]; exact pushEnergy_length_le _ _ h
  · rw [hsame]; exact pushEnergy_getLast _ _
  · intro hc
    simp only [detect]
    rw [if_pos hc]

/-- Witness for C9's theorem on a single-sample frame from a one-entry history
with an active cooldown. -/
theorem detect_history_order_witness :
    ((⟨[0], 1⟩ : BeatState).history.length ≤ historySize) ∧
    ((detect 20 (3/2) [1] ⟨[0], 1⟩).2.history
        = pushEnergy (⟨[0], 1⟩ : BeatState).history (rms [1]) ∧
     (detect 20 (3/2) [1] ⟨[0], 1⟩).2.history.length ≤ historySize ∧
     (detect 20 (3/2) [1] ⟨[0], 1⟩).2.history.getLast? = some (rms [1]) ∧
     (0 < (⟨[0], 1⟩ : BeatState).cooldown → (detect 20 (3/2) [1] ⟨[0], 1⟩).1.2
        = intensityOf (rms [1]) (pushEnergy (⟨[0], 1⟩ : BeatState).history (rms [1])))) :=
  ⟨by simp [historySize], detect_history_order 20 (3/2) [1] ⟨[0], 1⟩ (by simp [historySize])⟩

end BeatTheorems

/-- The fixed table of 56 frequency breakpoints of the original Processing
sketch, `LEGACY_FREQ_BANDS`. -/
def legacyTable : List ℚ :=
  [1, 3, 5, 10, 16, 22, 26, 31, 39, 42, 45, 55, 60, 65, 70, 80, 90, 100,
   120, 140, 160, 200, 240, 280, 320, 400, 480, 560, 590, 640, 720, 800,
   960, 1024, 1120, 1280, 1600, 1920, 2240, 2560, 3200, 3340, 3590, 3720,
   3840, 4480, 5120, 6400, 7680, 8960, 10240, 12800, 15360, 15360, 15360, 17800]

/-- Index of the Nyquist bin of the real FFT, `bufferSize // 2`. -/
def nyquistBinCount (bufferSize : ℕ) : ℕ := bufferSize / 2

/-- Number of frequencies returned by `np.fft.rfftfreq(bufferSize)`,
namely `bufferSize // 2 + 1`. -/
def nFftFreqs (bufferSize : ℕ) : ℕ := bufferSize / 2 + 1

/-- The legacy breakpoint list used by the analyzer,
`LEGACY_FREQ_BANDS[:num_bands + 6]`. -/
def bandFreqsLegacy (numBands : ℕ) : List ℚ := legacyTable.take (numBands + 6)

/-- `AudioAnalyzer._compute_band_indices`: for each pair of consecutive
breakpoints, convert the two frequencies to FFT bin indices, force the high
bin to be at least one past the low bin, and clamp both into the range of
`np.fft.rfftfreq`. -/
def computeBandIndices {α : Type} [LinearOrderedField α] [FloorRing α]
    (bandFreqs : List α) (sampleRate bufferSize : ℕ) : List (ℤ × ℤ) :=
  (List.range (bandFreqs.length - 1)).map fun i =>
    let res : α := (sampleRate : α) / (bufferSize : α)
    let lowBin : ℤ := pyInt (bandFreqs.getD i 0 / res)
    let highBin : ℤ := pyInt (bandFreqs.getD (i + 1) 0 / res)
    (min lowBin ((nFftFreqs bufferSize : ℤ) - 1),
     min (max highBin (lowBin + 1)) (nFftFreqs bufferSize : ℤ))

/-- `AudioAnalyzer._generate_log_bands`: `numBands + 1` logarithmically spaced
breakpoints from 20 Hz to `min(sampleRate / 2, 20000)` Hz, the real-power
reading of `np.logspace`. -/
noncomputable def generateLogBands (numBands : ℕ) (sampleRate : ℕ) : List ℝ :=
  let a := Real.logb 10 20
  let b := Real.logb 10 (min ((sampleRate : ℝ) / 2) 20000)
  (List.range (numBands + 1)).map fun k : ℕ =>
    (10 : ℝ) ^ (a + (k : ℝ) * ((b - a) / (numBands : ℝ)))

section BandIndexTheorems

/-- Every pair produced by `computeBandIndices` has its high bin strictly
above its low bin and at most one past the Nyquist bin, whatever the
breakpoint list. -/
theorem computeBandIndices_pair_bounds {α : Type} [LinearOrderedField α]
    [FloorRing α] (bandFreqs : List α) (sampleRate bufferSize : ℕ)
    (p : ℤ × ℤ) (hp : p ∈ computeBandIndices bandFreqs sampleRate bufferSize) :
    p.1 < p.2 ∧ p.2 ≤ (nyquistBinCount bufferSize : ℤ) + 1 := by
  unfold computeBandIndices at hp
  rw [List.mem_map] at hp
  obtain ⟨i, _, hpe⟩ := hp
  subst hpe
  have hL : (nFftFreqs bufferSize : ℤ) = (nyquistBinCount bufferSize : ℤ) + 1 := by
    simp [nFftFreqs, nyquistBinCount]
  constructor
  · dsimp only
    omega
  · dsimp only
    omega

/-- The number of pairs produced by `computeBandIndices` is one less than the
number of breakpoints. -/
theorem computeBandIndices_length {α : Type} [LinearOrderedField α]
    [FloorRing α] (bandFreqs : List α) (sampleRate bufferSize : ℕ) :
    (computeBandIndices bandFreqs sampleRate bufferSize).length
      = bandFreqs.length - 1 := by
  simp [computeBandIndices]

end BandIndexTheorems

/-- The legacy breakpoint table has 56 entries. -/
theorem legacyTable_length : legacyTable.length = 56 := by
  simp [legacyTable]

/-- The modern mode generates `numBands + 1` breakpoints. -/
theorem generateLogBands_length (numBands sampleRate : ℕ) :
    (generateLogBands numBands sampleRate).length = numBands + 1 := by
  unfold generateLogBands
  rw [List.length_map, List.length_range]

/-- Every entry of the legacy breakpoint table is at least 1 Hz. -/
theorem legacyTable_ge_one : ∀ q ∈ legacyTable, 1 ≤ q := by decide

/-- C3 (amended): in modern mode the band mapping has exactly N pairs; in
legacy mode it has `min(N + 6, 56) - 1` pairs (the table slice keeps extra
breakpoints for the three-tap averaging); in both modes every pair has its
high bin strictly above its low bin and at most `nyquistBinCount + 1`. -/
theorem band_indices_shape (sr bs N : ℕ) :
    (computeBandIndices (generateLogBands N sr) sr bs).length = N ∧
    (computeBandIndices (bandFreqsLegacy N) sr bs).length = min (N + 6) 56 - 1 ∧
    (∀ p ∈ computeBandIndices (generateLogBands N sr) sr bs,
      p.1 < p.2 ∧ p.2 ≤ (nyquistBinCount bs : ℤ) + 1) ∧
    (∀ p ∈ computeBandIndices (bandFreqsLegacy N) sr bs,
      p.1 < p.2 ∧ p.2 ≤ (nyquistBinCount bs : ℤ) + 1) := by
  refine ⟨?_, ?_, fun p hp => computeBandIndices_pair_bounds _ _ _ p hp,
    fun p hp => computeBandIndices_pair_bounds _ _ _ p hp⟩
  · rw [computeBandIndices_length, generateLogBands_length]
    omega
  · rw [computeBandIndices_length]
    simp [bandFreqsLegacy, legacyTable_length]

/-- Witness for C3's theorem: a concrete legacy pair at band count one. -/
theorem band_indices_shape_witness :
    ((1, 3) : ℤ × ℤ) ∈ computeBandIndices (bandFreqsLegacy 1) 10 10 ∧
    ((1:ℤ) < 3 ∧ (3:ℤ) ≤ (nyquistBinCount 10 : ℤ) + 1) := by
  have hmem : ((1, 3) : ℤ × ℤ) ∈ computeBandIndices (bandFreqsLegacy 1) 10 10 := by
    unfold computeBandIndices
    rw [List.mem_map]
    refine ⟨0, ?_, ?_⟩
    · simp [bandFreqsLegacy, legacyTable]
    · norm_num [bandFreqsLegacy, legacyTable, pyInt, nFftFreqs]
  exact ⟨hmem, (band_indices_shape 10 10 1).2.2.2 (1, 3) hmem⟩

/-- C3 counterexample: at band count one the legacy mapping has six pairs,
not one. -/
theorem band_indices_legacy_count_cex :
    (computeBandIndices (bandFreqsLegacy 1) 44100 4096).length = 6 ∧
    (6 : ℕ) ≠ 1 := by
  constructor
  · rw [computeBandIndices_length]
    simp [bandFreqsLegacy, legacyTable_length]
  · decide

/-- `AudioAnalyzer._extract_bands_legacy`: for each band index, look up the
breakpoints `i+1, i+2, i+3` of the sliced table (index-clamped at its end),
convert them to FFT bins, clamp the bins into the magnitude array, take the
center-weighted three-tap average, and apply the square root and the gain
ramp. -/
noncomputable def extractBandsLegacy (sampleRate bufferSize numBands : ℕ)
    (mags : List ℚ) (amp : ℚ) : List ℝ :=
  (List.range numBands).map fun i : ℕ =>
    let freqs := bandFreqsLegacy numBands
    let res : ℚ := (sampleRate : ℚ) / (bufferSize : ℚ)
    let f1 := freqs.getD (min (i + 1) (freqs.length - 1)) 0
    let f2 := freqs.getD (min (i + 2) (freqs.length - 1)) 0
    let f3 := freqs.getD (min (i + 3) (freqs.length - 1)) 0
    let b1 := (max 0 (min (pyInt (f1 / res)) ((mags.length : ℤ) - 1))).toNat
    let b2 := (max 0 (min (pyInt (f2 / res)) ((mags.length : ℤ) - 1))).toNat
    let b3 := (max 0 (min (pyInt (f3 / res)) ((mags.length : ℤ) - 1))).toNat
    let val := (mags.getD b1 0 + 2 * mags.getD b2 0 + mags.getD b3 0) / 4
    Real.sqrt ((val : ℝ) * (amp : ℝ)) * (amp : ℝ) * ((i : ℝ) / 25 + 4 / 5)

/-- The FFT bin of breakpoint `k` of the legacy frequency table, as the claim
words it: `floor(freq / (sampleRate / fftSize))` via Python `int()`. -/
def legacyBreakpointBin (sampleRate bufferSize k : ℕ) : ℤ :=
  pyInt (legacyTable.getD k 0 / ((sampleRate : ℚ) / (bufferSize : ℚ)))

/-- The claimed band formula, stated from the spec's words: the magnitudes at
the bins of breakpoints `i+1, i+2, i+3`, center-weighted average
`(m1 + 2*m2 + m3) / 4`, then
`sqrt(value * amplitudeScale) * amplitudeScale * (i/25 + 0.8)`. -/
noncomputable def specLegacyBand (sampleRate bufferSize : ℕ) (mags : List ℚ)
    (amp : ℚ) (i : ℕ) : ℝ :=
  let m1 := mags.getD (legacyBreakpointBin sampleRate bufferSize (i + 1)).toNat 0
  let m2 := mags.getD (legacyBreakpointBin sampleRate bufferSize (i + 2)).toNat 0
  let m3 := mags.getD (legacyBreakpointBin sampleRate bufferSize (i + 3)).toNat 0
  Real.sqrt ((((m1 + 2 * m2 + m3) / 4 : ℚ) : ℝ) * (amp : ℝ)) * (amp : ℝ)
    * ((i : ℝ) / 25 + 4 / 5)

/-- An entry of the legacy table read through `getD` is at least one. -/
theorem legacyTable_getD_ge_one (k : ℕ) (hk : k < 56) :
    1 ≤ legacyTable.getD k 0 := by
  have hlen : k < legacyTable.length := by rw [legacyTable_length]; exact hk
  have hmem : legacyTable.getD k 0 ∈ legacyTable := by
    rw [List.getD_eq_getElem?_getD, List.getElem?_eq_getElem hlen]
    simp only [Option.getD_some]
    exact List.getElem_mem hlen
  exact legacyTable_ge_one _ hmem

/-- When the raw bin is nonnegative and within the magnitude array, the
clamping in the legacy extraction is the identity. -/
theorem clamp_bin_eq (f res : ℚ) (len : ℕ) (hf : 1 ≤ f) (hres : 0 < res)
    (hlt : (pyInt (f / res)).toNat < len) :
    (max 0 (min (pyInt (f / res)) ((len : ℤ) - 1))).toNat
      = (pyInt (f / res)).toNat := by
  have hfr : (0:ℚ) ≤ f / res := div_nonneg (by linarith) (le_of_lt hres)
  have h0 : 0 ≤ pyInt (f / res) := by
    unfold pyInt
    rw [if_neg (not_lt.mpr hfr)]
    exact Int.floor_nonneg.mpr hfr
  omega

/-- C2: in legacy mode, for every band index `i < numBands` (with the band
count within the 56-entry table and the breakpoint bins inside the magnitude
array, as holds in the deployed configuration), the extracted band value is
exactly `sqrt(((m1 + 2*m2 + m3)/4) * amplitudeScale) * amplitudeScale *
((i/25) + 0.8)` with `m1, m2, m3` the magnitudes at the bins of breakpoints
`i+1, i+2, i+3` of the legacy frequency table. -/
theorem extract_bands_legacy_formula (sr bs N : ℕ) (mags : List ℚ) (amp : ℚ)
    (i : ℕ) (hi : i < N) (hN : N + 6 ≤ 56) (hsr : 0 < sr) (hbs : 0 < bs)
    (hb1 : (legacyBreakpointBin sr bs (i + 1)).toNat < mags.length)
    (hb2 : (legacyBreakpointBin sr bs (i + 2)).toNat < mags.length)
    (hb3 : (legacyBreakpointBin sr bs (i + 3)).toNat < mags.length) :
    (extractBandsLegacy sr bs N mags amp).getD i 0
      = specLegacyBand sr bs mags amp i := by
  have hres : (0:ℚ) < (sr : ℚ) / (bs : ℚ) :=
    div_pos (by exact_mod_cast hsr) (by exact_mod_cast hbs)
  have hlenf : (bandFreqsLegacy N).length = N + 6 := by
    unfold bandFreqsLegacy
    rw [List.length_take, legacyTable_length]
    omega
  have hfreq : ∀ k, k < N + 6 →
      (bandFreqsLegacy N).getD (min k ((bandFreqsLegacy N).length - 1)) 0
        = legacyTable.getD k 0 := by
    intro k hk
    have hmin : min k ((bandFreqsLegacy N).length - 1) = k := by
      rw [hlenf]; omega
    rw [hmin]
    unfold bandFreqsLegacy
    rw [List.getD_eq_getElem?_getD, List.getD_eq_getElem?_getD,
      List.getElem?_take, if_pos hk]
  simp only [legacyBreakpointBin] at hb1 hb2 hb3
  rw [List.getD_eq_getElem?_getD]
  simp only [extractBandsLegacy, List.getElem?_map, List.getElem?_range hi,
    Option.map_some', Option.getD_some]
  rw [hfreq (i + 1) (by omega), hfreq (i + 2) (by omega), hfreq (i + 3) (by omega)]
  rw [clamp_bin_eq _ _ _ (legacyTable_getD_ge_one (i + 1) (by omega)) hres hb1,
    clamp_bin_eq _ _ _ (legacyTable_getD_ge_one (i + 2) (by omega)) hres hb2,
    clamp_bin_eq _ _ _ (legacyTable_getD_ge_one (i + 3) (by omega)) hres hb3]
  simp only [specLegacyBand, legacyBreakpointBin]

/-- Witness for C2's theorem: sample rate 10, buffer size 10, one band, a
constant magnitude array of eleven ones, amplitude scale four. -/
theorem extract_bands_legacy_formula_witness :
    (0:ℕ) < 1 ∧ 1 + 6 ≤ 56 ∧ (0:ℕ) < 10 ∧
    (legacyBreakpointBin 10 10 1).toNat < (List.replicate 11 (1:ℚ)).length ∧
    (legacyBreakpointBin 10 10 2).toNat < (List.replicate 11 (1:ℚ)).length ∧
    (legacyBreakpointBin 10 10 3).toNat < (List.replicate 11 (1:ℚ)).length ∧
    (extractBandsLegacy 10 10 1 (List.replicate 11 1) 4).getD 0 0
      = specLegacyBand 10 10 (List.replicate 11 1) 4 0 := by
  have h1 : (legacyBreakpointBin 10 10 1).toNat < (List.replicate 11 (1:ℚ)).length := by
    norm_num [legacyBreakpointBin, legacyTable, pyInt]
  have h2 : (legacyBreakpointBin 10 10 2).toNat < (List.replicate 11 (1:ℚ)).length := by
    norm_num [legacyBreakpointBin, legacyTable, pyInt]
  have h3 : (legacyBreakpointBin 10 10 3).toNat < (List.replicate 11 (1:ℚ)).length := by
    norm_num [legacyBreakpointBin, legacyTable, pyInt]
  exact ⟨by norm_num, by norm_num, by norm_num, h1, h2, h3,
    extract_bands_legacy_formula 10 10 1 (List.replicate 11 1) 4 0
      (by norm_num) (by norm_num) (by norm_num) (by norm_num) h1 h2 h3⟩

/-- A legacy visualizer bar: maximum and minimum display heights and the
current animated height (`Bar` in `legacy.py`; the layout fields `x`, `y` play
no part in the animation). -/
structure Bar where
  maxHeight : ℚ
  minHeight : ℚ
  currentHeight : ℚ

/-- A bar as constructed by `LegacyRenderer`: defaults `max_height = 200`,
`min_height = 6`, `current_height = 0`. -/
def Bar.init : Bar := ⟨200, 6, 0⟩

/-- `Bar.update`: if the target exceeds the trigger ratio of the current
height and the bar is below its maximum, rise by `growthRate * newHeight +
beatBoost`; otherwise decay by `decayRate * currentHeight`, snapping up to the
minimum when already below it. -/
def Bar.update (b : Bar) (newHeight beatBoost growthRate decayRate
    triggerThreshold : ℚ) : Bar :=
  if b.currentHeight * triggerThreshold < newHeight ∧
      b.currentHeight < b.maxHeight then
    { b with currentHeight := b.currentHeight + growthRate * newHeight + beatBoost }
  else if b.currentHeight < b.minHeight then
    { b with currentHeight := b.minHeight }
  else
    { b with currentHeight := b.currentHeight - decayRate * b.currentHeight }

/-- C4 (amended): with the default-signed parameters, a single `Bar.update`
(1) from below `maxHeight` overshoots it by at most the one rise increment
`growthRate * target + beatBoost`, (2) from at or above `maxHeight` never
increases the height, and (3) from at or above `minHeight` never falls below
`(1 - decayRate) * minHeight`. -/
theorem bar_update_bounds (b : Bar) (new boost g d t : ℚ)
    (hd0 : 0 ≤ d) (hd1 : d ≤ 1) (hg : 0 ≤ g) (hnew : 0 ≤ new)
    (hboost : 0 ≤ boost) (hmin0 : 0 ≤ b.minHeight)
    (hminmax : b.minHeight ≤ b.maxHeight) :
    (b.currentHeight < b.maxHeight →
      (b.update new boost g d t).currentHeight
        ≤ b.maxHeight + g * new + boost) ∧
    (b.maxHeight ≤ b.currentHeight →
      (b.update new boost g d t).currentHeight ≤ b.currentHeight) ∧
    (b.minHeight ≤ b.currentHeight →
      (1 - d) * b.minHeight ≤ (b.update new boost g d t).currentHeight) := by
  unfold Bar.update
  split
  · rename_i hrise
    refine ⟨fun hlt => ?_, fun hge => ?_, fun hmin => ?_⟩
    · simp only
      nlinarith [hrise.2]
    · exact absurd hrise.2 (not_lt.mpr hge)
    · simp only
      nlinarith
  · split
    · rename_i hsnap
      refine ⟨fun _ => ?_, fun hge => ?_, fun hmin => ?_⟩
      · simp only
        nlinarith
      · simp only
        linarith
      · simp only
        nlinarith
    · rename_i hfall
      refine ⟨fun hlt => ?_, fun hge => ?_, fun hmin => ?_⟩
      · simp only
        push_neg at hfall
        nlinarith
      · simp only
        push_neg at hfall
        nlinarith
      · simp only
        nlinarith

/-- Witness for C4's theorem at the freshly constructed bar with the default
animation parameters. -/
theorem bar_update_bounds_witness :
    ((0:ℚ) ≤ 3/200 ∧ (3/200 : ℚ) ≤ 1 ∧ (0:ℚ) ≤ 1/100 ∧ (0:ℚ) ≤ 5 ∧
     (0:ℚ) ≤ 0 ∧ (0:ℚ) ≤ Bar.init.minHeight ∧
     Bar.init.minHeight ≤ Bar.init.maxHeight) ∧
    (Bar.init.currentHeight < Bar.init.maxHeight →
      (Bar.init.update 5 0 (1/100) (3/200) (5/2)).currentHeight
        ≤ Bar.init.maxHeight + (1/100) * 5 + 0) ∧
    (Bar.init.maxHeight ≤ Bar.init.currentHeight →
      (Bar.init.update 5 0 (1/100) (3/200) (5/2)).currentHeight
        ≤ Bar.init.currentHeight) ∧
    (Bar.init.minHeight ≤ Bar.init.currentHeight →
      (1 - 3/200) * Bar.init.minHeight
        ≤ (Bar.init.update 5 0 (1/100) (3/200) (5/2)).currentHeight) :=
  ⟨⟨by norm_num, by norm_num, by norm_num, by norm_num, by norm_num,
    by norm_num [Bar.init], by norm_num [Bar.init]⟩,
   bar_update_bounds Bar.init 5 0 (1/100) (3/200) (5/2)
    (by norm_num) (by norm_num) (by norm_num) (by norm_num) (by norm_num)
    (by norm_num [Bar.init]) (by norm_num [Bar.init])⟩

/-- C4 counterexample: from the freshly constructed bar, a rising update with
target 100000 jumps the height to 1000, past the 200 maximum; and after one
update settles the bar at the minimum 6, the next decaying update produces
5.91, below the minimum. -/
theorem bar_update_bounds_cex :
    (Bar.init.update 100000 0 (1/100) (3/200) (5/2)).currentHeight = 1000 ∧
    (200:ℚ) < 1000 ∧
    ((Bar.init.update 0 0 (1/100) (3/200) (5/2)).update 0 0 (1/100) (3/200)
      (5/2)).currentHeight = 591/100 ∧
    (591/100 : ℚ) < 6 := by
  refine ⟨?_, by norm_num, ?_, by norm_num⟩
  · norm_num [Bar.update, Bar.init]
  · norm_num [Bar.update, Bar.init]

/-- A floating particle: position, discrete size bucket, velocity, and
transparency. -/
structure Particle where
  x : ℚ
  y : ℚ
  size : ℚ
  dx : ℚ
  dy : ℚ
  alpha : ℤ

instance : Inhabited Particle := ⟨⟨0, 0, 0, 0, 0, 0⟩⟩

/-- `Particle.create_random`, with the random module modelled as a stream
`u : ℕ → ℚ` of unit-interval draws consumed at positions `k, …, k+5`:
`x = uniform(0, width)`, `y = uniform(0, height)`, the size bucket from
`uniform(1, 12)` split at 7 and 11, `dx = (uniform(1, 3) / 75) * 3`,
`dy = (uniform(0, 6) - 3) / 75`, and `alpha = randint(100, 255)`. -/
def createRandom (u : ℕ → ℚ) (k : ℕ) (width height : ℚ) : Particle :=
  let rawSize := 1 + u (k + 2) * 11
  { x := u k * width
    y := u (k + 1) * height
    size := if rawSize < 7 then 1 else if rawSize < 11 then 2 else 3
    dx := ((1 + u (k + 3) * 2) / 75) * 3
    dy := (u (k + 4) * 6 - 3) / 75
    alpha := 100 + pyInt (u (k + 5) * 155) }

/-- `ParticleSystem`: canvas extents, the user speed multiplier, the enabled
flag, and the particle population. -/
structure ParticleSystem where
  width : ℚ
  height : ℚ
  speedMultiplier : ℚ
  enabled : Bool
  particles : List Particle

/-- Wrapping of one coordinate at the canvas edges, as the spec words it:
leaving past the limit re-enters at zero and vice versa. -/
def wrapCoord (limit v : ℚ) : ℚ :=
  if limit < v then 0 else if v < 0 then limit else v

/-- `ParticleSystem.update`: when enabled, every particle advances by its
velocity times `8.0 * speed_multiplier` and wraps at the canvas edges. -/
def ParticleSystem.update (s : ParticleSystem) : ParticleSystem :=
  if s.enabled then
    { s with particles := s.particles.map fun p =>
        let eff := 8 * s.speedMultiplier
        let x1 := p.x + p.dx * eff
        let y1 := p.y + p.dy * eff
        { p with
          x := if s.width < x1 then 0 else if x1 < 0 then s.width else x1
          y := if s.height < y1 then 0 else if y1 < 0 then s.height else y1 } }
  else s

/-- `ParticleSystem.reset`: replace every particle in place with a freshly
randomized one; returns the new system together with the advanced position of
the random stream. -/
def resetParticles (u : ℕ → ℚ) (pos : ℕ) (s : ParticleSystem) :
    ParticleSystem × ℕ :=
  ({ s with particles := (List.range s.particles.length).map fun i =>
      createRandom u (pos + 6 * i) s.width s.height },
   pos + 6 * s.particles.length)

/-- `LegacyRenderer.reset` on the bar population: every bar's current height
is set back to zero. -/
def resetBars (bars : List Bar) : List Bar :=
  bars.map fun b => { b with currentHeight := 0 }

/-- C7 (amended): on an update tick of an enabled system, every particle's
position advances by exactly `velocity * (8.0 * speedMultiplier)` before the
edge wrap is applied: the new coordinates are the wraps of
`x + dx * 8 * speedMultiplier` and `y + dy * 8 * speedMultiplier`. -/
theorem particle_update_displacement (s : ParticleSystem) (i : ℕ)
    (hi : i < s.particles.length) (hen : s.enabled = true) :
    (s.update.particles.getD i default).x
      = wrapCoord s.width ((s.particles.getD i default).x
          + (s.particles.getD i default).dx * (8 * s.speedMultiplier)) ∧
    (s.update.particles.getD i default).y
      = wrapCoord s.height ((s.particles.getD i default).y
          + (s.particles.getD i default).dy * (8 * s.speedMultiplier)) := by
  unfold ParticleSystem.update
  rw [if_pos hen]
  simp only [List.getD_eq_getElem?_getD, List.getElem?_map,
    List.getElem?_eq_getElem hi, Option.map_some', Option.getD_some]
  constructor
  · rfl
  · rfl

/-- Witness for C7's theorem: a single-particle system on a 100-by-100
canvas with unit velocity in `x`. -/
theorem particle_update_displacement_witness :
    ((0:ℕ) <
      (ParticleSystem.mk 100 100 1 true [⟨0, 0, 1, 1, 0, 255⟩]).particles.length) ∧
    ((ParticleSystem.mk 100 100 1 true [⟨0, 0, 1, 1, 0, 255⟩]).enabled = true) ∧
    (((ParticleSystem.mk 100 100 1 true [⟨0, 0, 1, 1, 0, 255⟩]).update.particles.getD
        0 default).x
      = wrapCoord 100
          (((ParticleSystem.mk 100 100 1 true
              [⟨0, 0, 1, 1, 0, 255⟩]).particles.getD 0 default).x
            + ((ParticleSystem.mk 100 100 1 true
              [⟨0, 0, 1, 1, 0, 255⟩]).particles.getD 0 default).dx * (8 * 1))) := by
  refine ⟨by norm_num, rfl, ?_⟩
  exact (particle_update_displacement
    (ParticleSystem.mk 100 100 1 true [⟨0, 0, 1, 1, 0, 255⟩]) 0
    (by norm_num) rfl).1

/-- C7 counterexample: with speed multiplier one, a particle with `dx = 1`
moves from `x = 0` to `x = 8` in one tick (the hidden 8.0 base boost), not to
`x = 0 + 1 * 1 = 1` as the claim's displacement says. -/
theorem particle_update_speed_cex :
    ((ParticleSystem.mk 100 100 1 true
        [⟨0, 0, 1, 1, 0, 255⟩]).update.particles.getD 0 default).x = 8 ∧
    (8 : ℚ) ≠ 0 + 1 * 1 := by
  constructor
  · norm_num [ParticleSystem.update]
  · norm_num

/-- C8 (amended): `BeatDetector.reset` and the legacy bar reset are exactly
idempotent; `ParticleSystem.reset` re-randomizes every particle, so a second
reset does not reproduce the first one's state but completely overwrites it:
resetting an already-reset system gives exactly the state a single reset from
the same random-stream position would give, independent of the particles the
first reset produced. -/
theorem reset_idempotent_overwrite :
    (∀ s : BeatState, BeatDetector.reset (BeatDetector.reset s)
        = BeatDetector.reset s) ∧
    (∀ bars : List Bar, resetBars (resetBars bars) = resetBars bars) ∧
    (∀ (u : ℕ → ℚ) (p1 p2 : ℕ) (s : ParticleSystem),
      (resetParticles u p2 (resetParticles u p1 s).1).1
        = (resetParticles u p2 s).1 ∧
      (resetParticles u p2 (resetParticles u p1 s).1).2
        = (resetParticles u p2 s).2) := by
  refine ⟨fun s => rfl, fun bars => ?_, fun u p1 p2 s => ⟨?_, ?_⟩⟩
  · unfold resetBars
    rw [List.map_map]
    rfl
  · simp [resetParticles]
  · simp [resetParticles]

/-- C8 counterexample: with the random stream `u n = n` on a unit canvas, a
single reset puts the particle at `x = 0` while resetting twice puts it at
`x = 6`, so two resets do not yield the state of one reset. -/
theorem reset_particles_twice_cex :
    ((resetParticles (fun n => (n : ℚ)) 0
        (ParticleSystem.mk 1 1 1 true [default])).1.particles.getD 0 default).x
      = 0 ∧
    ((resetParticles (fun n => (n : ℚ))
        (resetParticles (fun n => (n : ℚ)) 0
          (ParticleSystem.mk 1 1 1 true [default])).2
        (resetParticles (fun n => (n : ℚ)) 0
          (ParticleSystem.mk 1 1 1 true [default])).1).1.particles.getD
        0 default).x = 6 ∧
    (0 : ℚ) ≠ 6 := by
  refine ⟨?_, ?_, by norm_num⟩
  · norm_num [resetParticles, createRandom, List.range_succ]
  · norm_num [resetParticles, createRandom, List.range_succ]

/-- Animation state of `ModernRenderer`: the bar count and maximum height, the
peak gravity, and the per-bar target heights, current heights, peak-hold
positions, and peak velocities. -/
structure ModernState where
  numBars : ℕ
  maxBarHeight : ℚ
  peakGravity : ℚ
  targetHeights : List ℚ
  currentHeights : List ℚ
  peaks : List ℚ
  peakVelocities : List ℚ

/-- `np.max` over the modelled arrays: the maximum of a list, zero on the
empty list (the arrays here are never empty). -/
def npMax (l : List ℚ) : ℚ :=
  match l with
  | [] => 0
  | h :: t => t.foldl max h

/-- `ModernRenderer._update_peaks`: per bar, when the live height has passed
the peak, the peak snaps to it and its velocity resets; otherwise the peak
falls under gravity but is clamped to never drop below the live height. -/
def updatePeaks (st : ModernState) : ModernState :=
  { st with
    peaks := (List.range st.numBars).map fun i : ℕ =>
      let c := st.currentHeights.getD i 0
      let p := st.peaks.getD i 0
      let v := st.peakVelocities.getD i 0
      if p < c then c else max (p - (v + st.peakGravity)) c
    peakVelocities := (List.range st.numBars).map fun i : ℕ =>
      let c := st.currentHeights.getD i 0
      let p := st.peaks.getD i 0
      let v := st.peakVelocities.getD i 0
      if p < c then 0 else v + st.peakGravity }

/-- `ModernRenderer._update_heights_auto`: write the incoming bands into the
targets, auto-scale them toward the maximum bar height with the original
limit, smooth the current heights symmetrically at rate 0.15, apply the 3.0
floor, and update the peak holds. -/
def updateHeightsAuto (bands : List ℚ) (st : ModernState) : ModernState :=
  let n := st.numBars
  let written := (bands.take n).length
  let targets0 := (List.range n).map fun i : ℕ =>
    if i < written then bands.getD i 0 else st.targetHeights.getD i 0
  let maxVal := npMax targets0
  let targets1 :=
    if 0 < maxVal then
      targets0.map fun t =>
        t * min (st.maxBarHeight / max maxVal 1) (st.maxBarHeight / 50)
    else targets0
  let cur1 := (List.range n).map fun i : ℕ =>
    st.currentHeights.getD i 0
      + (targets1.getD i 0 - st.currentHeights.getD i 0) * (15 / 100)
  let cur2 := cur1.map fun c => max c 3
  updatePeaks { st with targetHeights := targets1, currentHeights := cur2 }

/-- `ModernRenderer._update_heights`, parametrized branch: rescale the bands
by `amplitudeScale / 15`, suppress sub-threshold targets to 30 percent,
auto-scale with the amplitude-dependent blend, move each bar asymmetrically
toward its target with the growth and decay rates, apply the 3.0 floor, and
update the peak holds. -/
def updateHeightsParam (ampScale growth decay thresh : ℚ) (bands : List ℚ)
    (st : ModernState) : ModernState :=
  let n := st.numBars
  let scaled := (bands.take n).map fun b => b * (ampScale / 15)
  let written := scaled.length
  let targets0 := (List.range n).map fun i : ℕ =>
    if i < written then scaled.getD i 0 else st.targetHeights.getD i 0
  let targets1 := targets0.map fun t => if t < thresh then t * (3 / 10) else t
  let maxVal := npMax targets1
  let targets2 :=
    if 0 < maxVal then
      targets1.map fun t =>
        t * min ((st.maxBarHeight / max maxVal 1)
            * (1 - min 1 (ampScale / 30) * (7 / 10)))
          (st.maxBarHeight / 30)
    else targets1
  let cur1 := (List.range n).map fun i : ℕ =>
    let c := st.currentHeights.getD i 0
    let diff := targets2.getD i 0 - c
    if 0 < diff then c + diff * min 1 (growth * 5)
    else c + diff * min 1 (decay * 3)
  let cur2 := cur1.map fun c => max c 3
  updatePeaks { st with targetHeights := targets2, currentHeights := cur2 }

/-- `ModernRenderer._update_heights`: the auto branch when the amplitude
scale is the zero sentinel, the parametrized branch otherwise. -/
def updateHeights (ampScale growth decay thresh : ℚ) (bands : List ℚ)
    (st : ModernState) : ModernState :=
  if ampScale = 0 then updateHeightsAuto bands st
  else updateHeightsParam ampScale growth decay thresh bands st

/-- After `updatePeaks`, every bar's peak hold dominates its current
height. -/
theorem updatePeaks_ge (st : ModernState) (i : ℕ) (hi : i < st.numBars) :
    (updatePeaks st).currentHeights.getD i 0 ≤ (updatePeaks st).peaks.getD i 0 := by
  unfold updatePeaks
  simp only [List.getD_eq_getElem?_getD, List.getElem?_map,
    List.getElem?_range hi, Option.map_some', Option.getD_some]
  split
  · exact le_refl _
  · exact le_max_right _ _

/-- C10: in the modern renderer, after every height-update tick, in the auto
variant and in the parametrized variant alike, each bar's peak-hold value is
at least that bar's current height: the gravity step clamps the falling peak
so it never drops below the live bar. -/
theorem modern_peaks_dominate (ampScale growth decay thresh : ℚ)
    (bands : List ℚ) (st : ModernState) (i : ℕ) (hi : i < st.numBars) :
    ((updateHeights ampScale growth decay thresh bands st).currentHeights.getD i 0
      ≤ (updateHeights ampScale growth decay thresh bands st).peaks.getD i 0) ∧
    ((updateHeightsAuto bands st).currentHeights.getD i 0
      ≤ (updateHeightsAuto bands st).peaks.getD i 0) := by
  have hauto : (updateHeightsAuto bands st).currentHeights.getD i 0
      ≤ (updateHeightsAuto bands st).peaks.getD i 0 := by
    unfold updateHeightsAuto
    exact updatePeaks_ge _ i hi
  have hparam :
      (updateHeightsParam ampScale growth decay thresh bands st).currentHeights.getD i 0
        ≤ (updateHeightsParam ampScale growth decay thresh bands st).peaks.getD i 0 := by
    unfold updateHeightsParam
    exact updatePeaks_ge _ i hi
  refine ⟨?_, hauto⟩
  unfold updateHeights
  split
  · exact hauto
  · exact hparam

/-- Witness for C10's theorem on a one-bar state at the default settings. -/
theorem modern_peaks_dominate_witness :
    (0 : ℕ) < (ModernState.mk 1 100 (1/2) [0] [0] [0] [0]).numBars ∧
    (((updateHeights 15 (1/100) (3/200) (5/2) [10]
          (ModernState.mk 1 100 (1/2) [0] [0] [0] [0])).currentHeights.getD 0 0
        ≤ (updateHeights 15 (1/100) (3/200) (5/2) [10]
          (ModernState.mk 1 100 (1/2) [0] [0] [0] [0])).peaks.getD 0 0) ∧
     ((updateHeightsAuto [10]
          (ModernState.mk 1 100 (1/2) [0] [0] [0] [0])).currentHeights.getD 0 0
        ≤ (updateHeightsAuto [10]
          (ModernState.mk 1 100 (1/2) [0] [0] [0] [0])).peaks.getD 0 0)) :=
  ⟨by norm_num,
   modern_peaks_dominate 15 (1/100) (3/200) (5/2) [10]
     (ModernState.mk 1 100 (1/2) [0] [0] [0] [0]) 0 (by norm_num)⟩
